import Mathlib

/-!
Verification of the VS Code "TypeScript Class Organizer" extension host
(`src/extension.ts`) as a shallow embedding in Lean 4.

The repository ships only the host glue in `src/extension.ts`.  The core
organizer (`SourceCodeOrganizer.organizeSourceCode`), the configuration
loader (`Configuration.getConfiguration`), the file-system helpers
(`fileExists`, `getDirectoryPath`, `joinPath`, ...) and the glob matcher
(`glob-to-regexp`) live outside `src/`, so they are represented here as
abstract function parameters collected in a `Host` record (resp. `FsHost`
for the path-walking configuration discovery), with the properties the
specification gives them stated as explicit hypotheses where a claim
needs them.
-/

namespace Tsco

/-- Failure raised by the core organizer when the input text is not valid
syntax (spec section 7, `ParseError`). -/
structure ParseError where
  message : String
deriving Repr, DecidableEq

/-- The `files` block of the resolved configuration: include / exclude glob
pattern lists, as consumed by `shouldOrganizeFile` in `extension.ts`. -/
structure FilePatterns where
  «include» : List String
  exclude : List String
deriving Repr, DecidableEq

/-- The resolved configuration value.  The host only inspects
`configuration.files`; everything else is consumed opaquely by the core. -/
structure Configuration where
  files : FilePatterns
deriving Repr, DecidableEq

/-- The extension settings read from VS Code (`Settings.getSettings()`):
the organize-on-save flag and the optional configuration file path. -/
structure Settings where
  organizeOnSave : Bool
  configurationFilePath : Option String
deriving Repr, DecidableEq

/-- A zero-based text position, as in `vscode.Position`. -/
structure Position where
  line : Nat
  character : Nat
deriving Repr, DecidableEq

/-- A text range, as in `vscode.Range`. -/
structure Range where
  start : Position
  stop : Position
deriving Repr, DecidableEq

/-- A replacement edit, as in `vscode.TextEdit.replace(range, newText)`. -/
structure TextEdit where
  range : Range
  newText : String
deriving Repr, DecidableEq

/-- A text document as the host sees it: its file-system path, language id
and current text (`vscode.TextDocument`). -/
structure Document where
  fsPath : String
  languageId : String
  text : String
deriving Repr, DecidableEq

/-- Split a character list at every newline character.  The result is
never empty: an empty text is one empty line. -/
def docLinesAux : List Char → List (List Char)
  | [] => [[]]
  | c :: cs =>
    if c = '\n' then
      [] :: docLinesAux cs
    else
      match docLinesAux cs with
      | [] => [[c]]
      | l :: ls => (c :: l) :: ls

/-- The lines of a document text, split at newline characters.  The list
is never empty, matching the VS Code invariant `lineCount >= 1`;
`docLines text` at index `i` is `lineAt(i).text`. -/
def docLines (text : String) : List String :=
  (docLinesAux text.data).map String.mk

/-- The whole-document range built by `organize` / `onSave`: from position
(0,0) to the end of the last line
(`new vscode.Position(lineCount - 1, lineAt(lineCount - 1).text.length)`). -/
def fullRange (text : String) : Range :=
  ⟨⟨0, 0⟩, ⟨(docLines text).length - 1, ((docLines text).getLastD "").length⟩⟩

/-- The collaborators of `extension.ts` that live outside `src/`, abstracted
as functions.

Modelled from the spec: `core` is the core entry point
`organize(filePath, sourceText, configuration)` of spec section 6 — a pure
function of text and configuration that either returns output text or fails
with a `ParseError` — standing for `SourceCodeOrganizer.organizeSourceCode`;
`matches` stands for the glob matcher `globToRegExp(pattern).test(text)`;
`getFullPath`, `getRelativePath`, `fileExists` and `readText` stand for the
file-system helpers; `resolveConfig` stands for the configuration discovery
(`getConfiguration`, analysed separately below over an explicit path model);
`workspaceRoot` is the workspace root directory path. -/
structure Host where
  «matches» : String → String → Bool
  core : String → String → Configuration → Except ParseError String
  getFullPath : String → String
  getRelativePath : String → String → String
  fileExists : String → Bool
  readText : String → String
  resolveConfig : Option String → Configuration
  workspaceRoot : String

/-- Removal of non-overlapping occurrences of a pattern from a character
list, scanning left to right and continuing after each removed occurrence.
The fuel argument makes the recursion structural; fuel equal to the length
of the text is always enough, since every step consumes at least one
character. -/
def removeOccsAux : Nat → List Char → List Char → List Char
  | 0, _, s => s
  | _ + 1, _, [] => []
  | fuel + 1, pat, c :: cs =>
    if pat.isPrefixOf (c :: cs) then
      removeOccsAux fuel pat (List.drop pat.length (c :: cs))
    else
      c :: removeOccsAux fuel pat cs

/-- JavaScript `text.replaceAll(pattern, "")` for a string pattern: every
non-overlapping occurrence of the pattern is removed, scanning left to
right; an empty pattern removes nothing. -/
def removeAll (text pattern : String) : String :=
  if pattern.data = [] then
    text
  else
    String.mk (removeOccsAux text.data.length pattern.data text.data)

/-- The expression `path.replaceAll("../", "").replaceAll("./", "")` from
`shouldOrganizeFile`: the relative path with the dot segments removed. -/
def stripDots (path : String) : String :=
  removeAll (removeAll path "../") "./"

/-- One glob test as performed inside `shouldOrganizeFile`: a pattern counts
as matching when it matches the raw relative path or the path with the
`../` and `./` substrings removed. -/
def patternMatches (m : String → String → Bool) (pat rel : String) : Bool :=
  m pat rel || m pat (stripDots rel)

/-- Result of `shouldOrganizeFile`: the decision and an optional reason. -/
structure FileCheck where
  shouldOrganize : Bool
  reason : Option String
deriving Repr, DecidableEq

/-- The function `shouldOrganizeFile(sourceCodeFilePathRelative, configuration)` from
`extension.ts` lines 82-108: include defaults to true (and is recomputed
over the include patterns when that list is non-empty), exclude defaults to
false (recomputed over the exclude patterns when non-empty); a failed
include check is reported first, then a positive exclude check, otherwise
the file should be organized. -/
def shouldOrganizeFile (m : String → String → Bool) (rel : String)
    (configuration : Configuration) : FileCheck :=
  let inc : Bool :=
    if configuration.files.«include».length > 0 then
      configuration.files.«include».any (fun pat => patternMatches m pat rel)
    else
      true
  let exc : Bool :=
    if configuration.files.exclude.length > 0 then
      configuration.files.exclude.any (fun pat => patternMatches m pat rel)
    else
      false
  if !inc then
    ⟨false, some "does not match file include patterns"⟩
  else if exc then
    ⟨false, some "matches file exclude patterns"⟩
  else
    ⟨true, none⟩

/-- Observable outcome of one `organize` call: the returned boolean (or the
propagated `ParseError`), the text of the document after the call, and the
workspace edit that was applied, if any. -/
structure HostOutcome where
  result : Except ParseError Bool
  finalText : String
  appliedEdit : Option TextEdit
deriving Repr

/-- The body of `organize` after the file check has passed
(`extension.ts` lines 250-277): run the core on the current text; on
success, when the organized text differs from the source text, apply a
whole-document replacement and return true, otherwise apply nothing and
return false; a core failure propagates before any edit is constructed, so
the document text is unchanged. -/
def organizeCoreStep (h : Host) (configuration : Configuration)
    (filePath sourceCode : String) : HostOutcome :=
  match h.core filePath sourceCode configuration with
  | Except.error e => ⟨Except.error e, sourceCode, none⟩
  | Except.ok organized =>
    if organized = sourceCode then
      ⟨Except.ok false, sourceCode, none⟩
    else
      ⟨Except.ok true, organized, some ⟨fullRange sourceCode, organized⟩⟩

/-- The function `organize(sourceCodeFilePath, configuration)` from `extension.ts`
lines 236-277, with the source text passed explicitly (in the extension it
is read from the open editor or from disk).  The relative path is computed
against the workspace root, the file check gates everything, and the
post-check body is `organizeCoreStep`. -/
def organizeWith (h : Host) (configuration : Configuration)
    (filePath sourceCode : String) : HostOutcome :=
  let rel := h.getRelativePath h.workspaceRoot filePath
  if (shouldOrganizeFile h.«matches» rel configuration).shouldOrganize then
    organizeCoreStep h configuration filePath sourceCode
  else
    ⟨Except.ok false, sourceCode, none⟩

/-- Definition of `organize` with the source text obtained through the host
(`editor ? editor.document.getText() : await readFile(...)`). -/
def organize (h : Host) (configuration : Configuration)
    (filePath : String) : HostOutcome :=
  organizeWith h configuration filePath (h.readText filePath)

/-- The async callback that `onSave` hands to `event.waitUntil`
(`extension.ts` lines 185-217): resolve the configuration, compute the
workspace-relative path, bail out with an empty edit list when the file
check fails, otherwise run the core on the document text and return either
a single whole-document replacement edit or an empty list. -/
def onSaveCallback (h : Host) (s : Settings) (doc : Document) :
    Except ParseError (List TextEdit) :=
  let configuration := h.resolveConfig s.configurationFilePath
  let filePath := h.getFullPath doc.fsPath
  let rel := h.getRelativePath h.workspaceRoot filePath
  if (shouldOrganizeFile h.«matches» rel configuration).shouldOrganize then
    match h.core filePath doc.text configuration with
    | Except.error e => Except.error e
    | Except.ok organized =>
      if organized = doc.text then
        Except.ok []
      else
        Except.ok [⟨fullRange doc.text, organized⟩]
  else
    Except.ok []

/-- The function `onSave(event)` from `extension.ts` lines 175-220: the callback is
registered with `event.waitUntil` only when the organize-on-save setting is
on, the document language id is exactly "typescript" and the full path
matches the glob pattern; `none` means no callback was registered and the
document is left untouched. -/
def onSave (h : Host) (s : Settings) (doc : Document) :
    Option (Except ParseError (List TextEdit)) :=
  if s.organizeOnSave && doc.languageId == "typescript" then
    if h.«matches» "**/*.ts" (h.getFullPath doc.fsPath) then
      some (onSaveCallback h s doc)
    else
      none
  else
    none

/-- The function `onOrganize(sourceCodeFilePath)` from `extension.ts` lines 133-146:
a null / undefined / empty path, a path not matching the glob, or a
non-existent file short-circuits to false; otherwise `organize` is called
on the full path with the resolved configuration. -/
def onOrganize (h : Host) (s : Settings) (path : Option String) :
    Except ParseError Bool :=
  match path with
  | none => Except.ok false
  | some p =>
    if p = "" then
      Except.ok false
    else
      let full := h.getFullPath p
      if h.«matches» "**/*.ts" full && h.fileExists full then
        (organize h (h.resolveConfig s.configurationFilePath) full).result
      else
        Except.ok false

/-!
## Configuration discovery (`getConfiguration`, `extension.ts` lines 13-59)

The file-system helpers `getDirectoryPath`, `joinPath` and `fileExists`
used by `getConfiguration` belong to the repository (`tsco-cli/helpers`)
but are not under `src/`.

Modelled from the spec: a directory or file path is a list of name
components measured from the file-system root (the root itself is `[]`);
`joinPath` appends components and `getDirectoryPath` drops the last one,
so the parent of the root is the root — exactly the fixpoint condition
the while loop in `getConfiguration` tests.  `fileExists` and the
configuration loader `Configuration.getConfiguration` stay abstract
functions of the path.
-/

/-- A file-system path: its name components from the root. -/
abbrev Path : Type := List String

/-- Helper `joinPath`: append path components. -/
def joinPath (p q : Path) : Path :=
  List.append p q

/-- Helper `getDirectoryPath`: the parent directory; the parent of the root is
the root itself. -/
def getDirectoryPath (p : Path) : Path :=
  List.dropLast p

/-- The file-system collaborators of `getConfiguration`, abstracted:
whether a file exists at a path, the configuration parsed from a file at a
path (`Configuration.getConfiguration`), the default configuration
(`Configuration.getDefaultConfiguration`) and the workspace root. -/
structure FsHost where
  fileExists : Path → Bool
  loadConfig : Path → Configuration
  defaultConfig : Configuration
  workspaceRoot : Path

/-- The while loop of `getConfiguration` (`extension.ts` lines 44-53):
while the current directory differs from its own parent, step to the
parent, and return the configuration from `tsco.json` there if it exists;
once the root is reached, fall back to the default configuration. -/
def walkUp (fs : FsHost) (dir : Path) : Configuration :=
  if h : dir = ([] : List String) then
    fs.defaultConfig
  else
    let parent := getDirectoryPath dir
    let candidate := joinPath parent ["tsco.json"]
    if fs.fileExists candidate then
      fs.loadConfig candidate
    else
      walkUp fs parent
termination_by List.length dir
decreasing_by
  simp only [getDirectoryPath, List.length_dropLast]
  have hp : 0 < List.length dir := List.length_pos.mpr h
  omega

/-- The function `getConfiguration(configurationFilePath)` from `extension.ts`
lines 13-59: a configured path is tried as given, then relative to the
workspace root; then `tsco.json` in the workspace root; then the parent
directories are walked upward; the default configuration is the final
fallback. -/
def getConfiguration (fs : FsHost) (configurationFilePath : Option Path) :
    Configuration :=
  let viaWalk : Configuration :=
    let rootCandidate := joinPath fs.workspaceRoot ["tsco.json"]
    if fs.fileExists rootCandidate then
      fs.loadConfig rootCandidate
    else
      walkUp fs fs.workspaceRoot
  match configurationFilePath with
  | some p =>
    if fs.fileExists p then
      fs.loadConfig p
    else if fs.fileExists (joinPath fs.workspaceRoot p) then
      fs.loadConfig (joinPath fs.workspaceRoot p)
    else
      viaWalk
  | none => viaWalk

/-- The proper ancestors of a path, nearest first, ending with the root. -/
def ancestorsOf (p : Path) : List Path :=
  if h : p = ([] : List String) then
    []
  else
    getDirectoryPath p :: ancestorsOf (getDirectoryPath p)
termination_by List.length p
decreasing_by
  simp only [getDirectoryPath, List.length_dropLast]
  have hp : 0 < List.length p := List.length_pos.mpr h
  omega

/-- The candidate configuration-file paths in the precedence order the
spec states: the configured path as given, then relative to the workspace
root, then `tsco.json` in the workspace root, then `tsco.json` in each
parent directory walking upward. -/
def specCandidates (fs : FsHost) (configurationFilePath : Option Path) :
    List Path :=
  (match configurationFilePath with
   | some p => [p, joinPath fs.workspaceRoot p]
   | none => []) ++
  (fs.workspaceRoot :: ancestorsOf fs.workspaceRoot).map
    (fun d => joinPath d ["tsco.json"])

/-- Configuration resolution as the spec words it: load the first
candidate that exists, and fall back to the default configuration when
none does. -/
def getConfigurationSpec (fs : FsHost) (configurationFilePath : Option Path) :
    Configuration :=
  match (specCandidates fs configurationFilePath).find? fs.fileExists with
  | some p => fs.loadConfig p
  | none => fs.defaultConfig

/-!
## Concrete hosts used by the witness theorems
-/

/-- A configuration with no include and no exclude patterns. -/
def testConfig : Configuration := ⟨⟨[], []⟩⟩

/-- A host whose core returns its input unchanged. -/
def testHost : Host where
  «matches» := fun _ _ => true
  core := fun _ sourceText _ => Except.ok sourceText
  getFullPath := fun p => p
  getRelativePath := fun _ p => p
  fileExists := fun _ => true
  readText := fun _ => "x"
  resolveConfig := fun _ => testConfig
  workspaceRoot := ""

/-- A host whose core always rewrites the text to "y". -/
def rewriteHost : Host :=
  { testHost with core := fun _ _ _ => Except.ok "y" }

/-- A host whose core always fails with a parse error. -/
def errHost : Host :=
  { testHost with core := fun _ _ _ => Except.error ⟨"invalid syntax"⟩ }

/-!
## Helper lemmas
-/

/-- The decision of `shouldOrganizeFile` as a boolean formula. -/
theorem shouldOrganize_eq (m : String → String → Bool) (rel : String)
    (cfg : Configuration) :
    (shouldOrganizeFile m rel cfg).shouldOrganize =
      ((if cfg.files.«include».length > 0 then
          cfg.files.«include».any (fun pat => patternMatches m pat rel)
        else true) &&
       !(if cfg.files.exclude.length > 0 then
           cfg.files.exclude.any (fun pat => patternMatches m pat rel)
         else false)) := by
  unfold shouldOrganizeFile
  cases hI : (if cfg.files.«include».length > 0 then
      cfg.files.«include».any (fun pat => patternMatches m pat rel)
    else true) <;>
  cases hE : (if cfg.files.exclude.length > 0 then
      cfg.files.exclude.any (fun pat => patternMatches m pat rel)
    else false) <;>
  simp [hI, hE]

/-- Equation for `organizeWith` with its local definitions expanded. -/
theorem organizeWith_eq (h : Host) (cfg : Configuration)
    (filePath sourceCode : String) :
    organizeWith h cfg filePath sourceCode =
      if (shouldOrganizeFile h.«matches»
          (h.getRelativePath h.workspaceRoot filePath) cfg).shouldOrganize
      then organizeCoreStep h cfg filePath sourceCode
      else ⟨Except.ok false, sourceCode, none⟩ := rfl

/-- Equation for `organizeWith` when the file check fails. -/
theorem organizeWith_skip (h : Host) (cfg : Configuration)
    (filePath sourceCode : String)
    (hchk : (shouldOrganizeFile h.«matches»
        (h.getRelativePath h.workspaceRoot filePath) cfg).shouldOrganize
        = false) :
    organizeWith h cfg filePath sourceCode =
      ⟨Except.ok false, sourceCode, none⟩ := by
  rw [organizeWith_eq, hchk]
  simp

/-- Equation for `organizeWith` when the file check passes. -/
theorem organizeWith_run (h : Host) (cfg : Configuration)
    (filePath sourceCode : String)
    (hchk : (shouldOrganizeFile h.«matches»
        (h.getRelativePath h.workspaceRoot filePath) cfg).shouldOrganize
        = true) :
    organizeWith h cfg filePath sourceCode =
      organizeCoreStep h cfg filePath sourceCode := by
  rw [organizeWith_eq, hchk]
  simp

/-- Equation for `onSaveCallback` with its local definitions expanded. -/
theorem onSaveCallback_eq (h : Host) (s : Settings) (doc : Document) :
    onSaveCallback h s doc =
      if (shouldOrganizeFile h.«matches»
          (h.getRelativePath h.workspaceRoot (h.getFullPath doc.fsPath))
          (h.resolveConfig s.configurationFilePath)).shouldOrganize then
        match h.core (h.getFullPath doc.fsPath) doc.text
            (h.resolveConfig s.configurationFilePath) with
        | Except.error e => Except.error e
        | Except.ok organized =>
          if organized = doc.text then
            Except.ok []
          else
            Except.ok [⟨fullRange doc.text, organized⟩]
      else
        Except.ok [] := rfl

/-!
## Claims
-/

/-- Claim C8: `onSave` registers an edit-producing callback through
`event.waitUntil` exactly when the organize-on-save setting is true, the
document language id is exactly "typescript", and the full path matches
the glob pattern for .ts files; when any of the three guards fails no
callback is registered (`onSave` yields `none`) and the document is left
untouched. -/
theorem onSave_registers_iff_guards (h : Host) (s : Settings)
    (doc : Document) :
    (onSave h s doc).isSome =
      (s.organizeOnSave && (doc.languageId == "typescript") &&
        h.«matches» "**/*.ts" (h.getFullPath doc.fsPath)) := by
  unfold onSave
  cases hb : (s.organizeOnSave && (doc.languageId == "typescript")) <;>
    cases hm : h.«matches» "**/*.ts" (h.getFullPath doc.fsPath) <;>
    simp [hb, hm]

/-- Claim C4: a file is handed to the core exactly when it passes the
include/exclude filter.  The decision of `shouldOrganizeFile` is: false
when the include list is non-empty and no include pattern matches; false
when (the include check passed and) some exclude pattern matches; true in
every other case, in particular when both pattern lists are empty.  And
`organize` runs the core-invoking body exactly when the decision is true,
returning false with no edit otherwise. -/
theorem shouldOrganizeFile_filters (m : String → String → Bool)
    (rel : String) (cfg : Configuration) :
    ((cfg.files.«include» ≠ [] ∧
        (∀ pat ∈ cfg.files.«include», patternMatches m pat rel = false)) →
      (shouldOrganizeFile m rel cfg).shouldOrganize = false)
    ∧ ((∃ pat ∈ cfg.files.exclude, patternMatches m pat rel = true) →
      (shouldOrganizeFile m rel cfg).shouldOrganize = false ∨
        (cfg.files.«include» ≠ [] ∧
          ∀ pat ∈ cfg.files.«include», patternMatches m pat rel = false))
    ∧ ((cfg.files.«include» = [] ∨
        ∃ pat ∈ cfg.files.«include», patternMatches m pat rel = true) →
      (∀ pat ∈ cfg.files.exclude, patternMatches m pat rel = false) →
      (shouldOrganizeFile m rel cfg).shouldOrganize = true)
    ∧ (∀ (h : Host) (filePath sourceCode : String),
        (shouldOrganizeFile h.«matches»
            (h.getRelativePath h.workspaceRoot filePath) cfg).shouldOrganize
            = false →
        organizeWith h cfg filePath sourceCode =
          ⟨Except.ok false, sourceCode, none⟩)
    ∧ (∀ (h : Host) (filePath sourceCode : String),
        (shouldOrganizeFile h.«matches»
            (h.getRelativePath h.workspaceRoot filePath) cfg).shouldOrganize
            = true →
        organizeWith h cfg filePath sourceCode =
          organizeCoreStep h cfg filePath sourceCode) := by
  refine ⟨?_, ?_, ?_, ?_, ?_⟩
  · intro ⟨hne, hnone⟩
    rw [shouldOrganize_eq]
    have hI : cfg.files.«include».any (fun pat => patternMatches m pat rel)
        = false := by
      simp only [List.any_eq_false]
      intro pat hp
      simp [hnone pat hp]
    have hlen : cfg.files.«include».length > 0 := by
      cases hc : cfg.files.«include» with
      | nil => exact absurd hc hne
      | cons a as => simp [hc]
    simp [hlen, hI]
  · intro ⟨pat, hp, hm⟩
    by_cases hinc : (cfg.files.«include» ≠ [] ∧
        ∀ q ∈ cfg.files.«include», patternMatches m q rel = false)
    · exact Or.inr hinc
    · left
      rw [shouldOrganize_eq]
      have hE : cfg.files.exclude.any (fun q => patternMatches m q rel)
          = true := List.any_eq_true.mpr ⟨pat, hp, hm⟩
      have hlen : cfg.files.exclude.length > 0 := by
        cases hc : cfg.files.exclude with
        | nil => rw [hc] at hp; exact absurd hp (List.not_mem_nil pat)
        | cons a as => simp [hc]
      simp [hlen, hE]
  · intro hinc hexc
    rw [shouldOrganize_eq]
    have hE : cfg.files.exclude.any (fun q => patternMatches m q rel)
        = false := by
      simp only [List.any_eq_false]
      intro pat hp
      simp [hexc pat hp]
    have hI : (if cfg.files.«include».length > 0 then
        cfg.files.«include».any (fun pat => patternMatches m pat rel)
      else true) = true := by
      cases hinc with
      | inl hnil => simp [hnil]
      | inr hex =>
        obtain ⟨pat, hp, hm⟩ := hex
        have : cfg.files.«include».any (fun q => patternMatches m q rel)
            = true := List.any_eq_true.mpr ⟨pat, hp, hm⟩
        simp [this]
    simp [hI, hE]
  · intro h filePath sourceCode hfalse
    unfold organizeWith
    simp [hfalse]
  · intro h filePath sourceCode htrue
    unfold organizeWith
    simp [htrue]

/-- Witness for C4 at a concrete input: with include pattern list
`["a"]`, exclude pattern list `["b"]`, an equality matcher and relative
path "b", the exclude pattern matches, so the file is not organized. -/
theorem shouldOrganizeFile_filters_witness :
    (∃ pat ∈ (Configuration.mk ⟨["a"], ["b"]⟩).files.exclude,
      patternMatches (fun p t => p == t) pat "b" = true) ∧
    ((shouldOrganizeFile (fun p t => p == t) "b"
        (Configuration.mk ⟨["a"], ["b"]⟩)).shouldOrganize = false ∨
      ((Configuration.mk ⟨["a"], ["b"]⟩).files.«include» ≠ [] ∧
        ∀ pat ∈ (Configuration.mk ⟨["a"], ["b"]⟩).files.«include»,
          patternMatches (fun p t => p == t) pat "b" = false)) := by
  refine ⟨⟨"b", by decide, by decide⟩, ?_⟩
  exact (shouldOrganizeFile_filters (fun p t => p == t) "b"
    (Configuration.mk ⟨["a"], ["b"]⟩)).2.1 ⟨"b", by decide, by decide⟩

/-- Claim C10: inside `shouldOrganizeFile` every include and exclude
pattern is tested both against the raw relative path and against the path
with the "../" and "./" substrings removed, and matching either form
counts; and exclusion overrides inclusion: a path matching an include
pattern and an exclude pattern (in either form) is not organized. -/
theorem shouldOrganizeFile_two_forms (m : String → String → Bool)
    (rel : String) (cfg : Configuration) :
    (∀ pat ∈ cfg.files.«include»,
      (m pat rel || m pat (stripDots rel)) = true →
      (∀ q ∈ cfg.files.exclude, patternMatches m q rel = false) →
      (shouldOrganizeFile m rel cfg).shouldOrganize = true)
    ∧ (∀ pat ∈ cfg.files.exclude,
      (m pat rel || m pat (stripDots rel)) = true →
      (shouldOrganizeFile m rel cfg).shouldOrganize = false)
    ∧ ((∃ pat ∈ cfg.files.«include», patternMatches m pat rel = true) →
      (∃ q ∈ cfg.files.exclude, patternMatches m q rel = true) →
      (shouldOrganizeFile m rel cfg).shouldOrganize = false) := by
  refine ⟨?_, ?_, ?_⟩
  · intro pat hp hm hexc
    rw [shouldOrganize_eq]
    have hE : cfg.files.exclude.any (fun q => patternMatches m q rel)
        = false := by
      simp only [List.any_eq_false]
      intro q hq
      simp [hexc q hq]
    have hI : cfg.files.«include».any (fun q => patternMatches m q rel)
        = true := List.any_eq_true.mpr ⟨pat, hp, hm⟩
    simp [hI, hE]
  · intro pat hp hm
    rw [shouldOrganize_eq]
    have hE : cfg.files.exclude.any (fun q => patternMatches m q rel)
        = true := List.any_eq_true.mpr ⟨pat, hp, hm⟩
    have hlen : cfg.files.exclude.length > 0 := by
      cases hc : cfg.files.exclude with
      | nil => rw [hc] at hp; exact absurd hp (List.not_mem_nil pat)
      | cons a as => simp [hc]
    simp [hlen, hE]
  · intro _ ⟨pat, hp, hm⟩
    rw [shouldOrganize_eq]
    have hE : cfg.files.exclude.any (fun q => patternMatches m q rel)
        = true := List.any_eq_true.mpr ⟨pat, hp, hm⟩
    have hlen : cfg.files.exclude.length > 0 := by
      cases hc : cfg.files.exclude with
      | nil => rw [hc] at hp; exact absurd hp (List.not_mem_nil pat)
      | cons a as => simp [hc]
    simp [hlen, hE]

/-- Witness for C10 at a concrete input: the include pattern "lib" does
not match the raw relative path "../lib" under the equality matcher, but
it does match the stripped form, so the file is organized. -/
theorem shouldOrganizeFile_two_forms_witness :
    ((fun p t => p == t) "lib" "../lib" ||
      (fun p t => p == t) "lib" (stripDots "../lib")) = true ∧
    (shouldOrganizeFile (fun p t => p == t) "../lib"
      (Configuration.mk ⟨["lib"], []⟩)).shouldOrganize = true := by
  refine ⟨by decide, ?_⟩
  exact (shouldOrganizeFile_two_forms (fun p t => p == t) "../lib"
      (Configuration.mk ⟨["lib"], []⟩)).1 "lib" (by decide) (by decide)
    (by intro q hq; exact absurd hq (List.not_mem_nil q))

/-- Claim C1: organizing is idempotent at the host level.  When the core
satisfies the idempotence contract of the spec (organizing already
organized text returns it unchanged) and the first `organize` run did not
fail, running `organize` again on the resulting document text leaves the
text as it is, reports false (unchanged) and applies no edit. -/
theorem organize_idempotent (h : Host) (cfg : Configuration)
    (filePath sourceCode : String)
    (hidem : ∀ p t u, h.core p t cfg = Except.ok u →
      h.core p u cfg = Except.ok u)
    (hok : (organizeWith h cfg filePath sourceCode).result.isOk = true) :
    organizeWith h cfg filePath
        ((organizeWith h cfg filePath sourceCode).finalText) =
      ⟨Except.ok false,
        (organizeWith h cfg filePath sourceCode).finalText, none⟩ := by
  cases hchk : (shouldOrganizeFile h.«matches»
      (h.getRelativePath h.workspaceRoot filePath) cfg).shouldOrganize with
  | false =>
    have hskip : ∀ t, organizeWith h cfg filePath t =
        ⟨Except.ok false, t, none⟩ :=
      fun t => organizeWith_skip h cfg filePath t hchk
    simp [hskip]
  | true =>
    have hrun : ∀ t, organizeWith h cfg filePath t =
        organizeCoreStep h cfg filePath t :=
      fun t => organizeWith_run h cfg filePath t hchk
    simp only [hrun] at hok ⊢
    cases hcore : h.core filePath sourceCode cfg with
    | error e =>
      unfold organizeCoreStep at hok
      rw [hcore] at hok
      simp [Except.isOk, Except.toBool] at hok
    | ok organized =>
      by_cases heq : organized = sourceCode
      · have h1 : organizeCoreStep h cfg filePath sourceCode =
            ⟨Except.ok false, sourceCode, none⟩ := by
          unfold organizeCoreStep
          rw [hcore]
          simp [heq]
        rw [h1]
        have h2 : h.core filePath sourceCode cfg = Except.ok sourceCode :=
          heq ▸ hcore
        show organizeCoreStep h cfg filePath sourceCode =
          ⟨Except.ok false, sourceCode, none⟩
        unfold organizeCoreStep
        rw [hidem filePath sourceCode sourceCode h2]
        simp
      · have h1 : organizeCoreStep h cfg filePath sourceCode =
            ⟨Except.ok true, organized,
              some ⟨fullRange sourceCode, organized⟩⟩ := by
          unfold organizeCoreStep
          rw [hcore]
          simp [heq]
        rw [h1]
        show organizeCoreStep h cfg filePath organized =
          ⟨Except.ok false, organized, none⟩
        unfold organizeCoreStep
        rw [hidem filePath sourceCode organized hcore]
        simp

/-- Witness for C1 at a concrete input: the identity core is idempotent,
the first run succeeds, and the second run reports false with no edit. -/
theorem organize_idempotent_witness :
    (∀ p t u, testHost.core p t testConfig = Except.ok u →
      testHost.core p u testConfig = Except.ok u) ∧
    (organizeWith testHost testConfig "a.ts" "x").result.isOk = true ∧
    organizeWith testHost testConfig "a.ts"
        ((organizeWith testHost testConfig "a.ts" "x").finalText) =
      ⟨Except.ok false,
        (organizeWith testHost testConfig "a.ts" "x").finalText, none⟩ := by
  have hidem : ∀ p t u, testHost.core p t testConfig = Except.ok u →
      testHost.core p u testConfig = Except.ok u := by
    intro p t u hu
    rfl
  exact ⟨hidem, by decide,
    organize_idempotent testHost testConfig "a.ts" "x" hidem (by decide)⟩

/-- Claim C2: an edit is applied exactly when the organized text differs
byte-for-byte from the source text.  With the file check passed and the
core returning `organized`, `organize` applies the whole-document
replacement and returns true when `organized` differs from the source, and
applies nothing and returns false when they are equal; `onSaveCallback`
likewise returns the single replacement edit or the empty edit list. -/
theorem organize_edit_iff_changed (h : Host) (cfg : Configuration)
    (filePath sourceCode organized : String)
    (hchk : (shouldOrganizeFile h.«matches»
        (h.getRelativePath h.workspaceRoot filePath) cfg).shouldOrganize
        = true)
    (hcore : h.core filePath sourceCode cfg = Except.ok organized) :
    (organized ≠ sourceCode →
      organizeWith h cfg filePath sourceCode =
        ⟨Except.ok true, organized,
          some ⟨fullRange sourceCode, organized⟩⟩)
    ∧ (organized = sourceCode →
      organizeWith h cfg filePath sourceCode =
        ⟨Except.ok false, sourceCode, none⟩)
    ∧ (∀ (s : Settings) (doc : Document),
        h.resolveConfig s.configurationFilePath = cfg →
        h.getFullPath doc.fsPath = filePath →
        doc.text = sourceCode →
        (organized ≠ sourceCode →
          onSaveCallback h s doc =
            Except.ok [⟨fullRange sourceCode, organized⟩])
        ∧ (organized = sourceCode →
          onSaveCallback h s doc = Except.ok [])) := by
  refine ⟨?_, ?_, ?_⟩
  · intro hne
    rw [organizeWith_run h cfg filePath sourceCode hchk]
    unfold organizeCoreStep
    rw [hcore]
    simp [hne]
  · intro heq
    rw [organizeWith_run h cfg filePath sourceCode hchk]
    unfold organizeCoreStep
    rw [hcore]
    simp [heq]
  · intro s doc hres hfull htext
    rw [onSaveCallback_eq, hres, hfull, htext, hchk, hcore]
    constructor
    · intro hne
      simp [hne]
    · intro heq
      simp [heq]

/-- Witness for C2 at a concrete input: the rewriting core turns "x" into
"y", which differs from the source, so the whole-document edit is applied
and true is returned. -/
theorem organize_edit_iff_changed_witness :
    (shouldOrganizeFile rewriteHost.«matches»
        (rewriteHost.getRelativePath rewriteHost.workspaceRoot "a.ts")
        testConfig).shouldOrganize = true ∧
    rewriteHost.core "a.ts" "x" testConfig = Except.ok "y" ∧
    organizeWith rewriteHost testConfig "a.ts" "x" =
      ⟨Except.ok true, "y", some ⟨fullRange "x", "y"⟩⟩ := by
  refine ⟨by decide, rfl, ?_⟩
  exact (organize_edit_iff_changed rewriteHost testConfig "a.ts" "x" "y"
    (by decide) rfl).1 (by decide)

/-- Claim C3: a core failure produces no edit and no text change.  With the
file check passed and the core failing with `e`, `organize` propagates the
error, leaves the document text unchanged and applies no edit; the
`onSave` callback likewise propagates the error and applies no edit. -/
theorem organize_error_no_edit (h : Host) (cfg : Configuration)
    (filePath sourceCode : String) (e : ParseError)
    (hchk : (shouldOrganizeFile h.«matches»
        (h.getRelativePath h.workspaceRoot filePath) cfg).shouldOrganize
        = true)
    (hcore : h.core filePath sourceCode cfg = Except.error e) :
    organizeWith h cfg filePath sourceCode =
      ⟨Except.error e, sourceCode, none⟩
    ∧ (∀ (s : Settings) (doc : Document),
        h.resolveConfig s.configurationFilePath = cfg →
        h.getFullPath doc.fsPath = filePath →
        doc.text = sourceCode →
        onSaveCallback h s doc = Except.error e) := by
  constructor
  · rw [organizeWith_run h cfg filePath sourceCode hchk]
    unfold organizeCoreStep
    rw [hcore]
  · intro s doc hres hfull htext
    rw [onSaveCallback_eq, hres, hfull, htext, hchk, hcore]
    simp

/-- Witness for C3 at a concrete input: the failing core makes `organize`
return the parse error with the text unchanged and no edit applied. -/
theorem organize_error_no_edit_witness :
    (shouldOrganizeFile errHost.«matches»
        (errHost.getRelativePath errHost.workspaceRoot "a.ts")
        testConfig).shouldOrganize = true ∧
    errHost.core "a.ts" "x" testConfig =
      Except.error ⟨"invalid syntax"⟩ ∧
    organizeWith errHost testConfig "a.ts" "x" =
      ⟨Except.error ⟨"invalid syntax"⟩, "x", none⟩ := by
  refine ⟨by decide, rfl, ?_⟩
  exact (organize_error_no_edit errHost testConfig "a.ts" "x"
    ⟨"invalid syntax"⟩ (by decide) rfl).1

/-- Claim C6: when a document is saved with all guards passing, the edits
registered through `event.waitUntil` are: a single replacement edit
carrying the organized text and covering the entire document — from
position (0,0) to the end of the last line — when the organized text
differs from the document text; the empty edit list when the text is
unchanged or the file is filtered out. -/
theorem onSave_whole_document_edit (h : Host) (st : Settings)
    (doc : Document)
    (h1 : st.organizeOnSave = true)
    (h2 : doc.languageId = "typescript")
    (h3 : h.«matches» "**/*.ts" (h.getFullPath doc.fsPath) = true) :
    ((shouldOrganizeFile h.«matches»
        (h.getRelativePath h.workspaceRoot (h.getFullPath doc.fsPath))
        (h.resolveConfig st.configurationFilePath)).shouldOrganize = false →
      onSave h st doc = some (Except.ok []))
    ∧ (∀ organized : String,
        (shouldOrganizeFile h.«matches»
            (h.getRelativePath h.workspaceRoot (h.getFullPath doc.fsPath))
            (h.resolveConfig st.configurationFilePath)).shouldOrganize
            = true →
        h.core (h.getFullPath doc.fsPath) doc.text
            (h.resolveConfig st.configurationFilePath) =
          Except.ok organized →
        (organized ≠ doc.text →
          onSave h st doc = some (Except.ok
            [⟨⟨⟨0, 0⟩,
                ⟨(docLines doc.text).length - 1,
                  ((docLines doc.text).getLastD "").length⟩⟩,
              organized⟩]))
        ∧ (organized = doc.text →
          onSave h st doc = some (Except.ok []))) := by
  have hsome : onSave h st doc = some (onSaveCallback h st doc) := by
    unfold onSave
    simp [h1, h2, h3]
  constructor
  · intro hchk
    rw [hsome, onSaveCallback_eq, hchk]
    simp
  · intro organized hchk hcore
    constructor
    · intro hne
      rw [hsome, onSaveCallback_eq, hchk, hcore]
      simp [hne, fullRange]
    · intro heq
      rw [hsome, onSaveCallback_eq, hchk, hcore]
      simp [heq]

/-- Witness for C6 at a concrete input: saving a typescript document whose
core output "y" differs from its text "x" registers exactly one edit from
(0,0) to the end of the single line, replacing the document with "y". -/
theorem onSave_whole_document_edit_witness :
    (Settings.mk true none).organizeOnSave = true ∧
    (Document.mk "a.ts" "typescript" "x").languageId = "typescript" ∧
    onSave rewriteHost (Settings.mk true none)
        (Document.mk "a.ts" "typescript" "x") =
      some (Except.ok [⟨⟨⟨0, 0⟩, ⟨0, 1⟩⟩, "y"⟩]) := by
  refine ⟨rfl, rfl, ?_⟩
  have hmain := (onSave_whole_document_edit rewriteHost
    (Settings.mk true none) (Document.mk "a.ts" "typescript" "x")
    rfl rfl (by decide)).2 "y" (by decide) rfl
  have := hmain.1 (by decide)
  simpa using this

/-- Claim C9: `onOrganize` returns false without any organization when its
path argument is null or empty, when the path does not match the .ts glob,
or when no file exists at the path (the short-circuit result `false` holds
for every host, in particular for every core); only a non-empty, existing,
glob-matching path reaches the `organize` call. -/
theorem onOrganize_short_circuits (h : Host) (st : Settings) :
    onOrganize h st none = Except.ok false
    ∧ onOrganize h st (some "") = Except.ok false
    ∧ (∀ p : String, p ≠ "" →
        (h.«matches» "**/*.ts" (h.getFullPath p) &&
          h.fileExists (h.getFullPath p)) = false →
        onOrganize h st (some p) = Except.ok false)
    ∧ (∀ p : String, p ≠ "" →
        (h.«matches» "**/*.ts" (h.getFullPath p) &&
          h.fileExists (h.getFullPath p)) = true →
        onOrganize h st (some p) =
          (organize h (h.resolveConfig st.configurationFilePath)
            (h.getFullPath p)).result) := by
  refine ⟨rfl, by simp [onOrganize], ?_, ?_⟩
  · intro p hp hcond
    unfold onOrganize
    simp [hp, hcond]
  · intro p hp hcond
    unfold onOrganize
    simp [hp, hcond]

/-- Witness for C9 at a concrete input: a non-empty path to an existing
.ts file reaches the `organize` call. -/
theorem onOrganize_short_circuits_witness :
    ("a.ts" : String) ≠ "" ∧
    onOrganize testHost (Settings.mk true none) (some "a.ts") =
      (organize testHost
        (testHost.resolveConfig (Settings.mk true none).configurationFilePath)
        (testHost.getFullPath "a.ts")).result := by
  refine ⟨by decide, ?_⟩
  exact (onOrganize_short_circuits testHost (Settings.mk true none)).2.2.2
    "a.ts" (by decide) (by decide)

/-- Equation for `ancestorsOf` at the root. -/
theorem ancestorsOf_nil : ancestorsOf ([] : Path) = [] := by
  unfold ancestorsOf
  simp

/-- Equation for `ancestorsOf` away from the root. -/
theorem ancestorsOf_ne (p : Path) (hne : p ≠ []) :
    ancestorsOf p =
      getDirectoryPath p :: ancestorsOf (getDirectoryPath p) := by
  conv_lhs => rw [ancestorsOf]
  simp [hne]

/-- Equation for `walkUp` at the root. -/
theorem walkUp_nil (fs : FsHost) : walkUp fs [] = fs.defaultConfig := by
  unfold walkUp
  simp

/-- Equation for `walkUp` away from the root. -/
theorem walkUp_ne (fs : FsHost) (p : Path) (hne : p ≠ []) :
    walkUp fs p =
      if fs.fileExists (joinPath (getDirectoryPath p) ["tsco.json"]) then
        fs.loadConfig (joinPath (getDirectoryPath p) ["tsco.json"])
      else
        walkUp fs (getDirectoryPath p) := by
  conv_lhs => rw [walkUp]
  simp [hne]

/-- The parent-directory walk loads the configuration from the nearest
proper ancestor directory holding a `tsco.json`, and falls back to the
default configuration when no ancestor holds one. -/
theorem walkUp_eq_find (fs : FsHost) (p : Path) :
    walkUp fs p =
      match ((ancestorsOf p).map
          (fun d => joinPath d ["tsco.json"])).find? fs.fileExists with
      | some c => fs.loadConfig c
      | none => fs.defaultConfig := by
  suffices aux : ∀ (n : Nat) (q : Path), q.length = n →
      walkUp fs q =
        match ((ancestorsOf q).map
            (fun d => joinPath d ["tsco.json"])).find? fs.fileExists with
        | some c => fs.loadConfig c
        | none => fs.defaultConfig by
    exact aux p.length p rfl
  intro n
  induction n with
  | zero =>
    intro q hq
    have hq0 : q = [] := List.length_eq_zero.mp hq
    subst hq0
    rw [walkUp_nil, ancestorsOf_nil]
    simp
  | succ k ih =>
    intro q hq
    have hne : q ≠ [] := by
      intro h0
      subst h0
      simp at hq
    rw [walkUp_ne fs q hne, ancestorsOf_ne q hne]
    have hlen : (getDirectoryPath q).length = k := by
      simp only [getDirectoryPath, List.length_dropLast, hq]
      omega
    cases hf : fs.fileExists (joinPath (getDirectoryPath q) ["tsco.json"]) with
    | true => simp [List.find?_cons, hf]
    | false =>
      simp only [List.map_cons, List.find?_cons, hf, if_neg]
      exact ih (getDirectoryPath q) hlen

/-- Claim C5: `getConfiguration` follows the fixed precedence order: a
configured settings path is tried as given and then relative to the
workspace root; then `tsco.json` in the workspace root; then `tsco.json`
in each parent directory walking upward; and when no candidate file
exists, the default configuration — so a configuration value is always
returned.  Stated as equality with `getConfigurationSpec`, the cascade
written from the words of the spec. -/
theorem getConfiguration_precedence (fs : FsHost)
    (configurationFilePath : Option Path) :
    getConfiguration fs configurationFilePath =
      getConfigurationSpec fs configurationFilePath := by
  cases configurationFilePath with
  | none =>
    unfold getConfiguration getConfigurationSpec specCandidates
    simp only [List.nil_append, List.map_cons]
    cases hroot : fs.fileExists (joinPath fs.workspaceRoot ["tsco.json"]) with
    | true => simp [List.find?_cons, hroot]
    | false =>
      simp only [List.find?_cons, hroot, if_neg]
      simp only [Bool.false_eq_true, if_false]
      exact walkUp_eq_find fs fs.workspaceRoot
  | some p =>
    unfold getConfiguration getConfigurationSpec specCandidates
    simp only [List.cons_append, List.nil_append, List.map_cons]
    cases h1 : fs.fileExists p with
    | true => simp [List.find?_cons, h1]
    | false =>
      cases h2 : fs.fileExists (joinPath fs.workspaceRoot p) with
      | true => simp [List.find?_cons, h1, h2]
      | false =>
        cases hroot : fs.fileExists
            (joinPath fs.workspaceRoot ["tsco.json"]) with
        | true => simp [List.find?_cons, h1, h2, hroot]
        | false =>
          simp only [List.find?_cons, h1, h2, hroot, if_neg]
          simp only [Bool.false_eq_true, if_false]
          exact walkUp_eq_find fs fs.workspaceRoot

/-- Claim C7: the parent-directory walk of `getConfiguration` terminates
for every starting directory.  The loop guard `dir != getDirectoryPath dir`
fails exactly at the file-system root; each step strictly shrinks the path
(the parent has one component fewer); and iterating `getDirectoryPath` as
many times as the path has components reaches the root. -/
theorem getDirectoryPath_walk_terminates :
    (∀ p : Path, getDirectoryPath p = p ↔ p = [])
    ∧ (∀ p : Path, (getDirectoryPath p).length = p.length - 1)
    ∧ (∀ p : Path, Nat.iterate getDirectoryPath p.length p = []) := by
  refine ⟨?_, ?_, ?_⟩
  · intro p
    constructor
    · intro hEq
      by_contra hne
      have hlen := congrArg List.length hEq
      simp only [getDirectoryPath, List.length_dropLast] at hlen
      have hpos : 0 < p.length := List.length_pos.mpr hne
      omega
    · intro h0
      subst h0
      rfl
  · intro p
    simp [getDirectoryPath, List.length_dropLast]
  · suffices aux : ∀ (n : Nat) (p : Path), p.length = n →
        Nat.iterate getDirectoryPath n p = [] by
      intro p
      exact aux p.length p rfl
    intro n
    induction n with
    | zero =>
      intro p hp
      have h0 : p = [] := List.length_eq_zero.mp hp
      subst h0
      rfl
    | succ k ih =>
      intro p hp
      rw [Function.iterate_succ_apply]
      apply ih
      simp [getDirectoryPath, List.length_dropLast, hp]

end Tsco
